import Mathlib

/-!
Shallow embedding of the core of the `spotify-lyrics-translator` repository,
together with proofs about the embedded operations.

Embedded source files:
* `src/utils/time_utils.py` — `ms_to_min_sec`, `time_str_to_ms`
* `src/core/cache.py` — `LyricsCache.load_cache`, `LyricsCache.add_lyrics`
* `src/gui/components/lyrics_view.py` — `update_current_lyric`, `update_translations`
* `src/gui/app.py` — `translate_line`, `translate` (the batch closure of
  `_translate_lyrics`), `update_display` / `_get_current_playback_position` /
  `_update_song_info`

Python dynamic values, machine integers and exceptions are modelled explicitly:
integers are `Int` (Python ints are unbounded), `//` and `%` are `Int.fdiv` and
`Int.fmod` (floor division), fallible code returns `Except`, `str` values are
`String` manipulated through their character lists.
-/

/-! ### Python dynamic values fed to the time utilities -/

/-- A dynamically typed Python value as it reaches `ms_to_min_sec`:
an `int`, a `str`, or `None`. -/
inductive PyVal where
  | int : Int → PyVal
  | str : String → PyVal
  | pyNone : PyVal
deriving DecidableEq

/-- A Python exception class, as far as the embedded code distinguishes them. -/
inductive PyExn where
  | typeError
  | indexError
  | otherError
deriving DecidableEq

/-! ### Character-level model of Python `str(int)` and `int(str)` -/

/-- The decimal digit character for `n < 10`. -/
def digitChar (n : Nat) : Char := Char.ofNat (48 + n)

/-- Numeric value of a digit character. -/
def digitVal (c : Char) : Nat := c.toNat - 48

/-- ASCII decimal digit test. -/
def isDigitChar (c : Char) : Bool := 48 ≤ c.toNat && c.toNat ≤ 57

/-- Whitespace as stripped by Python's `int(str)` conversion. -/
def isSpaceChar (c : Char) : Bool :=
  c.toNat = 32 || c.toNat = 9 || c.toNat = 10 || c.toNat = 13 || c.toNat = 11 || c.toNat = 12

/-- Fuel-driven digit extraction: with fuel exceeding `n` this computes the
decimal digits of `n`, most significant first. -/
def natCharsAux : Nat → Nat → List Char
  | 0, _ => []
  | fuel + 1, n =>
    if n < 10 then [digitChar n]
    else natCharsAux fuel (n / 10) ++ [digitChar (n % 10)]

/-- Decimal digits of `n`, most significant first; model of Python `str`
applied to a non-negative integer. -/
def natChars (n : Nat) : List Char := natCharsAux (n + 1) n

theorem natCharsAux_fuel : ∀ (f1 f2 n : Nat), n < f1 → n < f2 →
    natCharsAux f1 n = natCharsAux f2 n := by
  intro f1
  induction f1 with
  | zero => intro f2 n h1; omega
  | succ f1 ih =>
    intro f2 n h1 h2
    match f2, h2 with
    | f2 + 1, h2 =>
      simp only [natCharsAux]
      by_cases hn : n < 10
      · simp [hn]
      · have hpos : 0 < n := by omega
        have hdiv : n / 10 < n := Nat.div_lt_self hpos (by omega)
        simp only [hn, if_false]
        rw [ih f2 (n / 10) (by omega) (by omega)]

theorem natChars_lt {n : Nat} (h : n < 10) : natChars n = [digitChar n] := by
  simp [natChars, natCharsAux, h]

theorem natChars_ge {n : Nat} (h : 10 ≤ n) :
    natChars n = natChars (n / 10) ++ [digitChar (n % 10)] := by
  have hpos : 0 < n := by omega
  have hdiv : n / 10 < n := Nat.div_lt_self hpos (by omega)
  show natCharsAux (n + 1) n = natChars (n / 10) ++ [digitChar (n % 10)]
  conv_lhs => rw [natCharsAux]
  rw [if_neg (Nat.not_lt.mpr h), natCharsAux_fuel n (n / 10 + 1) (n / 10) (by omega) (by omega)]
  rfl

/-- Model of Python `str` applied to an integer: optional minus sign followed
by the decimal digits. -/
def intChars (i : Int) : List Char :=
  if i < 0 then '-' :: natChars i.natAbs else natChars i.toNat

/-- One folding step of decimal parsing. -/
def parseStep (acc : Nat) (c : Char) : Nat := acc * 10 + digitVal c

/-- Parse a non-empty all-digit character list as a natural number;
any other list is rejected (Python `int` raises `ValueError`). -/
def parseNatChars (cs : List Char) : Option Nat :=
  if cs.isEmpty then Option.none
  else if cs.all isDigitChar then some (cs.foldl parseStep 0)
  else Option.none

/-- Strip leading and trailing whitespace, as Python `int(str)` does. -/
def stripChars (cs : List Char) : List Char :=
  ((cs.dropWhile isSpaceChar).reverse.dropWhile isSpaceChar).reverse

/-- Model of Python `int(s)` on a string `s`: strips whitespace, accepts an
optional sign followed by decimal digits, and fails (raises `ValueError`)
otherwise. -/
def pySignSplit : List Char → Option Int
  | [] => Option.none
  | c :: rest =>
    if c = '-' then (parseNatChars rest).map (fun n => -(n : Int))
    else if c = '+' then (parseNatChars rest).map (fun n => (n : Int))
    else (parseNatChars (c :: rest)).map (fun n => (n : Int))

def pyIntChars (cs : List Char) : Option Int := pySignSplit (stripChars cs)

/-! ### `src/utils/time_utils.py` -/

/-- Python f-string `f"{seconds:02d}"`: zero-pad a one-digit non-negative
number to two characters; other values print as `str`. -/
def pad2Chars (s : Int) : List Char :=
  if 0 ≤ s ∧ s < 10 then '0' :: natChars s.toNat else intChars s

/-- The format expression `f"{minutes}:{seconds:02d}"` applied to the
quantities computed in `ms_to_min_sec` for an integer input `ms`. -/
def formatMinSec (ms : Int) : String :=
  let minutes := ms.fdiv 60000
  let seconds := (ms.fmod 60000).fdiv 1000
  String.mk (intChars minutes ++ ':' :: pad2Chars seconds)

/-- Embeds `ms_to_min_sec` (src/utils/time_utils.py, lines 3-12).
A `str` input is converted with `int(ms)`; a failing conversion
(`ValueError`) and a `None` input (`TypeError` from `ms // 60000`) are
caught and yield `"0:00"`. -/
def ms_to_min_sec : PyVal → String
  | .int ms => formatMinSec ms
  | .str s =>
    match pyIntChars s.data with
    | some ms => formatMinSec ms
    | Option.none => "0:00"
  | .pyNone => "0:00"

/-- Model of Python `time_str.split(":")` on the character list of the
string (non-empty separator semantics: splitting the empty string yields
one empty part). -/
def splitColon : List Char → List (List Char)
  | [] => [[]]
  | c :: rest =>
    match splitColon rest with
    | [] => [[]]
    | r :: rs => if c = ':' then [] :: r :: rs else (c :: r) :: rs

/-- Embeds `time_str_to_ms` (src/utils/time_utils.py, lines 14-20):
`minutes, seconds = map(int, time_str.split(":"))`; a part that is not an
integer, or a number of parts other than two, raises `ValueError`, which is
caught and yields `0`. -/
def time_str_to_ms (s : String) : Int :=
  match (splitColon s.data).mapM pyIntChars with
  | some [m, sec] => m * 60000 + sec * 1000
  | _ => 0

example : ms_to_min_sec (.int 61500) = "1:01" := by decide
example : ms_to_min_sec (.int 0) = "0:00" := by decide
example : ms_to_min_sec (.int (-1)) = "-1:59" := by decide
example : ms_to_min_sec (.str "125000") = "2:05" := by decide
example : ms_to_min_sec (.str "abc") = "0:00" := by decide
example : time_str_to_ms "1:01" = 61000 := by decide
example : time_str_to_ms "nope" = 0 := by decide
example : time_str_to_ms "1:2:3" = 0 := by decide

/-! ### Decimal rendering / parsing round trip -/

theorem digitChar_isDigit {d : Nat} (h : d < 10) : isDigitChar (digitChar d) = true := by
  interval_cases d <;> decide

theorem digitVal_digitChar {d : Nat} (h : d < 10) : digitVal (digitChar d) = d := by
  interval_cases d <;> decide

theorem natChars_all_digits (n : Nat) : ∀ c ∈ natChars n, isDigitChar c = true := by
  induction n using Nat.strong_induction_on with
  | _ n ih =>
    by_cases h : n < 10
    · rw [natChars_lt h]
      intro c hc
      simp only [List.mem_singleton] at hc
      subst hc
      exact digitChar_isDigit h
    · rw [natChars_ge (by omega)]
      intro c hc
      rcases List.mem_append.mp hc with hc | hc
      · exact ih (n / 10) (Nat.div_lt_self (by omega) (by omega)) c hc
      · simp only [List.mem_singleton] at hc
        subst hc
        exact digitChar_isDigit (Nat.mod_lt _ (by omega))

theorem natChars_ne_nil (n : Nat) : natChars n ≠ [] := by
  by_cases h : n < 10
  · rw [natChars_lt h]; simp
  · rw [natChars_ge (by omega)]; simp

theorem natChars_foldl (n : Nat) :
    ∀ a : Nat, (natChars n).foldl parseStep a = a * 10 ^ (natChars n).length + n := by
  induction n using Nat.strong_induction_on with
  | _ n ih =>
    intro a
    by_cases h : n < 10
    · rw [natChars_lt h]
      simp [parseStep, digitVal_digitChar h]
    · rw [natChars_ge (by omega)]
      have hdiv : n / 10 < n := Nat.div_lt_self (by omega) (by omega)
      rw [List.foldl_append, ih (n / 10) hdiv a]
      simp only [List.foldl_cons, List.foldl_nil, List.length_append, List.length_singleton]
      rw [parseStep, digitVal_digitChar (Nat.mod_lt _ (by omega))]
      set L := (natChars (n / 10)).length with hL
      calc (a * 10 ^ L + n / 10) * 10 + n % 10
          = a * (10 ^ L * 10) + (10 * (n / 10) + n % 10) := by ring
        _ = a * 10 ^ (L + 1) + n := by rw [Nat.div_add_mod, pow_succ]

theorem parseNatChars_natChars (n : Nat) : parseNatChars (natChars n) = some n := by
  have hne : (natChars n).isEmpty = false := by
    cases h : natChars n with
    | nil => exact absurd h (natChars_ne_nil n)
    | cons c cs => rfl
  have hall : (natChars n).all isDigitChar = true :=
    List.all_eq_true.mpr (fun c hc => natChars_all_digits n c hc)
  rw [parseNatChars, hne, if_neg (by simp), hall, if_pos rfl, natChars_foldl n 0]
  simp

theorem isDigitChar_bounds {c : Char} (h : isDigitChar c = true) :
    48 ≤ c.toNat ∧ c.toNat ≤ 57 := by
  simpa [isDigitChar, Bool.and_eq_true, decide_eq_true_eq] using h

theorem isDigitChar_not_space {c : Char} (h : isDigitChar c = true) : isSpaceChar c = false := by
  have hb := isDigitChar_bounds h
  simp only [isSpaceChar, Bool.or_eq_false_iff, decide_eq_false_iff_not]
  omega

theorem isDigitChar_ne_colon {c : Char} (h : isDigitChar c = true) : c ≠ ':' := by
  intro hc
  subst hc
  simp [isDigitChar] at h

theorem isDigitChar_ne_minus {c : Char} (h : isDigitChar c = true) : c ≠ '-' := by
  intro hc
  subst hc
  simp [isDigitChar] at h

theorem isDigitChar_ne_plus {c : Char} (h : isDigitChar c = true) : c ≠ '+' := by
  intro hc
  subst hc
  simp [isDigitChar] at h

theorem dropWhile_eq_self_of_all {p : Char → Bool} {cs : List Char}
    (h : ∀ c ∈ cs, p c = false) : cs.dropWhile p = cs := by
  cases cs with
  | nil => rfl
  | cons c rest => simp [List.dropWhile_cons, h c (by simp)]

theorem stripChars_eq_self {cs : List Char} (h : ∀ c ∈ cs, isSpaceChar c = false) :
    stripChars cs = cs := by
  rw [stripChars, dropWhile_eq_self_of_all h,
      dropWhile_eq_self_of_all (fun c hc => h c (List.mem_reverse.mp hc)), List.reverse_reverse]

theorem pyIntChars_natChars (n : Nat) : pyIntChars (natChars n) = some (n : Int) := by
  have hstrip : stripChars (natChars n) = natChars n :=
    stripChars_eq_self (fun c hc => isDigitChar_not_space (natChars_all_digits n c hc))
  rw [pyIntChars, hstrip]
  cases h : natChars n with
  | nil => exact absurd h (natChars_ne_nil n)
  | cons c rest =>
    have hdig : isDigitChar c = true := natChars_all_digits n c (by rw [h]; simp)
    simp only [pySignSplit]
    rw [if_neg (isDigitChar_ne_minus hdig), if_neg (isDigitChar_ne_plus hdig), ← h,
        parseNatChars_natChars n]
    rfl

theorem pyIntChars_intChars (i : Int) : pyIntChars (intChars i) = some i := by
  by_cases h : i < 0
  · have hstrip : stripChars ('-' :: natChars i.natAbs) = '-' :: natChars i.natAbs := by
      refine stripChars_eq_self ?_
      intro c hc
      rcases List.mem_cons.mp hc with hc | hc
      · subst hc; rfl
      · exact isDigitChar_not_space (natChars_all_digits _ c hc)
    rw [intChars, if_pos h, pyIntChars, hstrip]
    have hneg : -((i.natAbs : Int)) = i := by omega
    simp [pySignSplit, parseNatChars_natChars, hneg, abs_of_neg h]
  · have hcast : ((i.toNat : Int)) = i := by omega
    rw [intChars, if_neg h, pyIntChars_natChars, hcast]

theorem pyIntChars_pad2Chars (s : Int) : pyIntChars (pad2Chars s) = some s := by
  by_cases h : 0 ≤ s ∧ s < 10
  · have hs10 : s.toNat < 10 := by omega
    have hstrip : stripChars ('0' :: natChars s.toNat) = '0' :: natChars s.toNat := by
      refine stripChars_eq_self ?_
      intro c hc
      rcases List.mem_cons.mp hc with hc | hc
      · subst hc; rfl
      · exact isDigitChar_not_space (natChars_all_digits _ c hc)
    have hall : ('0' :: natChars s.toNat).all isDigitChar = true := by
      refine List.all_eq_true.mpr ?_
      intro c hc
      rcases List.mem_cons.mp hc with hc | hc
      · subst hc; rfl
      · exact natChars_all_digits _ c hc
    rw [pad2Chars, if_pos h, pyIntChars, hstrip]
    have hfold : List.foldl parseStep 0 ('0' :: natChars s.toNat) = s.toNat := by
      simp only [List.foldl_cons]
      have h0 : parseStep 0 '0' = 0 := rfl
      rw [h0, natChars_foldl s.toNat 0]
      omega
    have hcast : ((s.toNat : Int)) = s := by omega
    simp [pySignSplit, parseNatChars, hall, hfold, hcast]
  · rw [pad2Chars, if_neg h, pyIntChars_intChars]

/-! ### Splitting the formatted string -/

theorem splitColon_ne_nil (cs : List Char) : splitColon cs ≠ [] := by
  cases cs with
  | nil => simp [splitColon]
  | cons c rest =>
    simp only [splitColon]
    cases h : splitColon rest with
    | nil => simp
    | cons r rs => by_cases hc : c = ':' <;> simp [hc]

theorem splitColon_no_colon {cs : List Char} (h : ':' ∉ cs) : splitColon cs = [cs] := by
  induction cs with
  | nil => rfl
  | cons c rest ih =>
    have hc : c ≠ ':' := by
      intro e
      exact h (by simp [e])
    have hrest : ':' ∉ rest := fun m => h (List.mem_cons_of_mem _ m)
    simp only [splitColon, ih hrest]
    simp [Ne.symm hc, hc]

theorem splitColon_append {a : List Char} (b : List Char) (ha : ':' ∉ a) :
    splitColon (a ++ ':' :: b) = a :: splitColon b := by
  induction a with
  | nil =>
    simp only [List.nil_append, splitColon]
    cases h : splitColon b with
    | nil => exact absurd h (splitColon_ne_nil b)
    | cons r rs => simp [← h]
  | cons c a2 ih =>
    have hc : c ≠ ':' := by
      intro e
      exact ha (by simp [e])
    have ha2 : ':' ∉ a2 := fun m => ha (List.mem_cons_of_mem _ m)
    rw [List.cons_append]
    conv_lhs => rw [splitColon, ih ha2]
    simp [hc]

theorem natChars_no_colon (n : Nat) : ':' ∉ natChars n := by
  intro m
  have hd := natChars_all_digits n ':' m
  simp [isDigitChar] at hd

theorem intChars_no_colon (i : Int) : ':' ∉ intChars i := by
  rw [intChars]
  by_cases h : i < 0
  · simp only [if_pos h]
    intro m
    rcases List.mem_cons.mp m with e | m
    · exact absurd e (by decide)
    · exact natChars_no_colon _ m
  · simp only [if_neg h]
    exact natChars_no_colon _

theorem pad2Chars_no_colon (s : Int) : ':' ∉ pad2Chars s := by
  rw [pad2Chars]
  by_cases h : 0 ≤ s ∧ s < 10
  · simp only [if_pos h]
    intro m
    rcases List.mem_cons.mp m with e | m
    · exact absurd e (by decide)
    · exact natChars_no_colon _ m
  · simp only [if_neg h]
    exact intChars_no_colon _

theorem formatMinSec_data (ms : Int) :
    (formatMinSec ms).data =
      intChars (ms.fdiv 60000) ++ ':' :: pad2Chars ((ms.fmod 60000).fdiv 1000) := rfl

theorem splitColon_formatMinSec (ms : Int) :
    splitColon (formatMinSec ms).data =
      [intChars (ms.fdiv 60000), pad2Chars ((ms.fmod 60000).fdiv 1000)] := by
  rw [formatMinSec_data, splitColon_append _ (intChars_no_colon _),
      splitColon_no_colon (pad2Chars_no_colon _)]

theorem minsec_arith (ms : Int) :
    ms.fdiv 60000 * 60000 + (ms.fmod 60000).fdiv 1000 * 1000 = ms.fdiv 1000 * 1000 := by
  rw [Int.fmod_eq_emod _ (by omega), Int.fdiv_eq_ediv _ (by omega),
      Int.fdiv_eq_ediv _ (by omega), Int.fdiv_eq_ediv _ (by omega)]
  omega

theorem time_str_to_ms_formatMinSec (ms : Int) :
    time_str_to_ms (formatMinSec ms) = ms.fdiv 1000 * 1000 := by
  rw [time_str_to_ms, splitColon_formatMinSec]
  simp only [List.mapM_cons, List.mapM_nil, pyIntChars_intChars, pyIntChars_pad2Chars,
    Option.pure_def, Option.bind_some, Option.bind_eq_bind]
  exact minsec_arith ms

/-! ### Claim C5: time codec round trip -/

/-- C5: for every integer `ms` with `0 ≤ ms ≤ 5999999`,
`time_str_to_ms (ms_to_min_sec ms)` equals `(ms // 1000) * 1000`: the
display round trip truncates to whole seconds. -/
theorem timeCodec_roundtrip_c5 (ms : Int) (_h0 : 0 ≤ ms) (_h1 : ms ≤ 5999999) :
    time_str_to_ms (ms_to_min_sec (.int ms)) = ms.fdiv 1000 * 1000 :=
  time_str_to_ms_formatMinSec ms

theorem timeCodec_roundtrip_c5_witness :
    0 ≤ (61500 : Int) ∧ (61500 : Int) ≤ 5999999 ∧
      time_str_to_ms (ms_to_min_sec (.int 61500)) = (61500 : Int).fdiv 1000 * 1000 :=
  ⟨by decide, by decide, timeCodec_roundtrip_c5 61500 (by decide) (by decide)⟩

/-! ### Claim C9: fail-closed formatting -/

/-- C9 counterexample: a negative integer is not rendered as `"0:00"`;
Python floor division turns `-1` into minutes `-1` and seconds `59`, so
`ms_to_min_sec(-1)` is `"-1:59"`. -/
theorem msToMinSec_c9_counterexample :
    ms_to_min_sec (.int (-1)) = "-1:59" ∧ ms_to_min_sec (.int (-1)) ≠ "0:00" :=
  ⟨by decide, by decide⟩

/-- A value on which `int(ms)` fails (`ValueError`) or that makes
`ms // 60000` raise `TypeError`: a non-numeric string, or `None`. -/
def pyNonNumeric : PyVal → Bool
  | .int _ => false
  | .str s => (pyIntChars s.data).isNone
  | .pyNone => true

/-- C9 amended: a non-numeric input (a string not parseable as an integer,
or `None`) yields `"0:00"` and the call never raises; a negative integer,
however, is formatted with floor-division semantics instead. -/
theorem msToMinSec_nonNumeric_c9 (v : PyVal) (h : pyNonNumeric v = true) :
    ms_to_min_sec v = "0:00" := by
  cases v with
  | int ms => simp [pyNonNumeric] at h
  | str s =>
    have hn : pyIntChars s.data = Option.none := by
      simpa [pyNonNumeric, Option.isNone_iff_eq_none] using h
    simp [ms_to_min_sec, hn]
  | pyNone => rfl

theorem msToMinSec_nonNumeric_c9_witness :
    ms_to_min_sec (.str "abc") = "0:00" ∧ ms_to_min_sec .pyNone = "0:00" :=
  ⟨msToMinSec_nonNumeric_c9 (.str "abc") (by decide),
   msToMinSec_nonNumeric_c9 .pyNone (by decide)⟩

/-! ### Lyric lines and display rows -/

/-- A lyric line as delivered by the Lyric Source:
`{'startTimeMs': ..., 'words': ...}`. -/
structure LyricLine where
  startTimeMs : Int
  words : String
deriving DecidableEq

/-- A translated line as built by `translate_line`:
`{'startTimeMs': ..., 'words': ..., 'translated': ...}`. -/
structure TranslatedLine where
  startTimeMs : Int
  words : String
  translated : String
deriving DecidableEq

/-- The try-block of `update_current_lyric` (lyrics_view.py, lines 66-71):
split the Time cell on `":"`, require exactly two parts, convert both with
`int`, and compute `minutes * 60000 + seconds * 1000`; any failure is
skipped (`continue`). -/
def parsedRowStart (time : String) : Option Int :=
  match splitColon time.data with
  | [a, b] =>
    match pyIntChars a, pyIntChars b with
    | some m, some s => some (m * 60000 + s * 1000)
    | _, _ => Option.none
  | _ => Option.none

/-- Embeds the scan loop of `update_current_lyric`
(src/gui/components/lyrics_view.py, lines 60-83): walk the rows in display
order, remember the last row whose parsed start time is `≤` the playback
position, and stop at the first row beyond it. -/
def scanRows : List String → Int → Nat → Option Nat → Option Nat
  | [], _, _, last => last
  | t :: rest, pos, idx, last =>
    match parsedRowStart t with
    | some st => if st ≤ pos then scanRows rest pos (idx + 1) (some idx) else last
    | Option.none => scanRows rest pos (idx + 1) last

/-- Embeds `update_current_lyric` on the Time cells of the displayed rows. -/
def update_current_lyric (rows : List String) (pos : Int) : Option Nat :=
  scanRows rows pos 0 Option.none

/-- The Time cell that `display_lyrics` (lyrics_view.py, lines 85-98) inserts
for a lyric line: `ms_to_min_sec(lyric['startTimeMs'])`. -/
def displayRowTime (l : LyricLine) : String := ms_to_min_sec (.int l.startTimeMs)

/-- The synchronizer applied to a song's lines: `update_current_lyric` over
the rows that `display_lyrics` produced for those lines. -/
def activeLine (lines : List LyricLine) (pos : Int) : Option Nat :=
  update_current_lyric (lines.map displayRowTime) pos

/-- Index of the last value `≤ pos` in a list, scanning the whole list;
this is the claim's specification of the active-line selection. -/
def lastIdxLEAux : List Int → Int → Nat → Option Nat → Option Nat
  | [], _, _, last => last
  | v :: rest, pos, idx, last =>
    lastIdxLEAux rest pos (idx + 1) (if v ≤ pos then some idx else last)

def lastIdxLE (vals : List Int) (pos : Int) : Option Nat :=
  lastIdxLEAux vals pos 0 Option.none

/-- Start time of a line after the display round trip: truncated to whole
seconds by `ms_to_min_sec` before `update_current_lyric` parses it back. -/
def truncStart (l : LyricLine) : Int := l.startTimeMs.fdiv 1000 * 1000

theorem parsedRowStart_formatMinSec (ms : Int) :
    parsedRowStart (formatMinSec ms) = some (ms.fdiv 1000 * 1000) := by
  rw [parsedRowStart, splitColon_formatMinSec]
  simp only [pyIntChars_intChars, pyIntChars_pad2Chars]
  rw [minsec_arith]

/-- Proof-side mirror of `scanRows` once every Time cell parses. -/
def scanVals : List Int → Int → Nat → Option Nat → Option Nat
  | [], _, _, last => last
  | v :: rest, pos, idx, last =>
    if v ≤ pos then scanVals rest pos (idx + 1) (some idx) else last

theorem scanRows_map (lines : List LyricLine) :
    ∀ (pos : Int) (idx : Nat) (last : Option Nat),
      scanRows (lines.map displayRowTime) pos idx last =
        scanVals (lines.map truncStart) pos idx last := by
  induction lines with
  | nil => intro pos idx last; rfl
  | cons l rest ih =>
    intro pos idx last
    have hb : parsedRowStart (displayRowTime l) = some (truncStart l) :=
      parsedRowStart_formatMinSec l.startTimeMs
    simp only [List.map_cons, scanRows, scanVals, hb]
    by_cases hle : truncStart l ≤ pos
    · rw [if_pos hle, if_pos hle, ih]
    · rw [if_neg hle, if_neg hle]

theorem lastIdxLEAux_all_gt {vals : List Int} {pos : Int}
    (h : ∀ v ∈ vals, pos < v) :
    ∀ (idx : Nat) (last : Option Nat), lastIdxLEAux vals pos idx last = last := by
  induction vals with
  | nil => intro idx last; rfl
  | cons v rest ih =>
    intro idx last
    have hv : pos < v := h v (by simp)
    simp only [lastIdxLEAux, if_neg (not_le.mpr hv)]
    exact ih (fun w hw => h w (List.mem_cons_of_mem _ hw)) _ _

theorem scanVals_eq_lastIdxLEAux (vals : List Int) (hp : vals.Pairwise (· ≤ ·)) :
    ∀ (pos : Int) (idx : Nat) (last : Option Nat),
      scanVals vals pos idx last = lastIdxLEAux vals pos idx last := by
  induction vals with
  | nil => intro pos idx last; rfl
  | cons v rest ih =>
    intro pos idx last
    have hp2 := List.pairwise_cons.mp hp
    by_cases hle : v ≤ pos
    · simp only [scanVals, lastIdxLEAux, if_pos hle]
      exact ih hp2.2 pos (idx + 1) (some idx)
    · simp only [scanVals, lastIdxLEAux, if_neg hle]
      rw [lastIdxLEAux_all_gt]
      intro w hw
      exact lt_of_lt_of_le (not_le.mp hle) (hp2.1 w hw)

theorem truncStart_mono {a b : LyricLine} (h : a.startTimeMs ≤ b.startTimeMs) :
    truncStart a ≤ truncStart b := by
  rw [truncStart, truncStart, Int.fdiv_eq_ediv _ (by omega), Int.fdiv_eq_ediv _ (by omega)]
  omega

/-! ### Claim C4: active-line selection -/

/-- C4 counterexample: one line starting at 1500 ms and position 1200 ms.
The claim requires no selection (1200 is before the line's start of 1500),
but the code compares against the displayed `"0:01"` — i.e. 1000 ms — and
selects index 0. -/
theorem activeLine_c4_counterexample :
    activeLine [⟨1500, "a"⟩] 1200 = some 0 ∧
      lastIdxLE [(1500 : Int)] 1200 = Option.none ∧
      (some 0 : Option Nat) ≠ Option.none :=
  ⟨by decide, by decide, by decide⟩

/-- C4 amended: for lines sorted ascending by `start_ms`, the synchronizer
selects the index of the last line whose start time **truncated to whole
seconds** (`(start_ms // 1000) * 1000`, the display round trip) is
`≤ position_ms`; it selects none when no line qualifies (in particular for
an empty list), the last line when the position is at or past all truncated
timestamps, and among equal timestamps the later line in list order wins. -/
theorem activeLine_c4_amended (lines : List LyricLine) (pos : Int)
    (hs : lines.Pairwise (fun a b => a.startTimeMs ≤ b.startTimeMs)) :
    activeLine lines pos = lastIdxLE (lines.map truncStart) pos := by
  rw [activeLine, update_current_lyric, lastIdxLE, scanRows_map]
  exact scanVals_eq_lastIdxLEAux _
    (List.pairwise_map.mpr (hs.imp truncStart_mono)) pos 0 Option.none

theorem activeLine_c4_amended_witness :
    ([⟨0, "a"⟩, ⟨1000, "b"⟩, ⟨1000, "c"⟩, ⟨5000, "d"⟩] : List LyricLine).Pairwise
        (fun a b => a.startTimeMs ≤ b.startTimeMs) ∧
      activeLine [⟨0, "a"⟩, ⟨1000, "b"⟩, ⟨1000, "c"⟩, ⟨5000, "d"⟩] 1000 =
        lastIdxLE (([⟨0, "a"⟩, ⟨1000, "b"⟩, ⟨1000, "c"⟩, ⟨5000, "d"⟩] : List LyricLine).map
          truncStart) 1000 ∧
      activeLine [⟨0, "a"⟩, ⟨1000, "b"⟩, ⟨1000, "c"⟩, ⟨5000, "d"⟩] 1000 = some 2 :=
  ⟨by decide,
   activeLine_c4_amended _ 1000 (by decide),
   by decide⟩

/-! ### `src/core/cache.py`: the lyrics cache -/

/-- A Python `dict` with string keys, modelled as an insertion-ordered
association list: updating an existing key keeps its position, a new key
is appended at the end — Python's dict iteration-order semantics. -/
abbrev PyDict (α : Type) := List (String × α)

/-- The cached value for one song: its ordered translated lines. -/
abbrev Lyrics := List TranslatedLine

def dictKeys {α : Type} (d : PyDict α) : List String := d.map Prod.fst

def dictContains {α : Type} (d : PyDict α) (k : String) : Bool :=
  d.any (fun p => p.1 = k)

/-- Assignment `d[k] = v` on a Python dict: overwrite in place when the
key is present, append otherwise. -/
def dictSet {α : Type} (d : PyDict α) (k : String) (v : α) : PyDict α :=
  if dictContains d k then d.map (fun p => if p.1 = k then (k, v) else p)
  else d ++ [(k, v)]

/-- Lookup `d.get(k)`: value of the first entry carrying key `k`, if any. -/
def dictGet {α : Type} (d : PyDict α) (k : String) : Option α :=
  (d.find? (fun p => p.1 = k)).map Prod.snd

/-- Embeds `add_lyrics` (src/core/cache.py, lines 33-38):
`self.cache[song_id] = lyrics`; then, if `len(self.cache) > self.max_size`,
`self.cache.pop(next(iter(self.cache)))` removes the first —
oldest-inserted — key; finally the cache is persisted (irrelevant to the
in-memory state). -/
def add_lyrics (max_size : Nat) (cache : PyDict Lyrics) (song_id : String)
    (lyrics : Lyrics) : PyDict Lyrics :=
  let c := dictSet cache song_id lyrics
  if max_size < c.length then c.drop 1 else c

/-- Embeds `get_lyrics` (src/core/cache.py, lines 40-42). -/
def get_lyrics (cache : PyDict Lyrics) (song_id : String) : Option Lyrics :=
  dictGet cache song_id

theorem dictContains_iff {α : Type} {d : PyDict α} {k : String} :
    dictContains d k = true ↔ k ∈ dictKeys d := by
  simp [dictContains, dictKeys, List.any_eq_true, List.mem_map]

theorem dictKeys_dictSet_of_contains {α : Type} {d : PyDict α} {k : String} {v : α}
    (h : dictContains d k = true) : dictKeys (dictSet d k v) = dictKeys d := by
  simp only [dictSet, if_pos h, dictKeys, List.map_map]
  congr 1
  funext p
  by_cases hp : p.1 = k
  · simp [Function.comp, hp]
  · simp [Function.comp, hp]

theorem dictKeys_dictSet_of_not_contains {α : Type} {d : PyDict α} {k : String} {v : α}
    (h : dictContains d k = false) : dictKeys (dictSet d k v) = dictKeys d ++ [k] := by
  simp [dictSet, h, dictKeys]

theorem dictSet_length_of_contains {α : Type} {d : PyDict α} {k : String} {v : α}
    (h : dictContains d k = true) : (dictSet d k v).length = d.length := by
  simp [dictSet, if_pos h]

theorem dictSet_length_le {α : Type} (d : PyDict α) (k : String) (v : α) :
    (dictSet d k v).length ≤ d.length + 1 := by
  by_cases h : dictContains d k
  · rw [dictSet_length_of_contains h]
    omega
  · simp [dictSet, h]

theorem dictSet_nodup {α : Type} {d : PyDict α} {k : String} {v : α}
    (hnd : (dictKeys d).Nodup) : (dictKeys (dictSet d k v)).Nodup := by
  by_cases h : dictContains d k
  · rw [dictKeys_dictSet_of_contains h]
    exact hnd
  · rw [dictKeys_dictSet_of_not_contains (by simpa using h)]
    refine hnd.append (List.nodup_singleton k) ?_
    intro x hx hk
    simp only [List.mem_singleton] at hk
    subst hk
    exact h (dictContains_iff.mpr hx)

theorem add_lyrics_length {max_size : Nat} {c : PyDict Lyrics} (song_id : String)
    (lyrics : Lyrics) (hb : c.length ≤ max_size) :
    (add_lyrics max_size c song_id lyrics).length ≤ max_size := by
  rw [add_lyrics]
  have hle : (dictSet c song_id lyrics).length ≤ c.length + 1 := dictSet_length_le c _ _
  by_cases h : max_size < (dictSet c song_id lyrics).length
  · rw [if_pos h]
    simp only [List.length_drop]
    omega
  · rw [if_neg h]
    omega

theorem add_lyrics_nodup {max_size : Nat} {c : PyDict Lyrics} (song_id : String)
    (lyrics : Lyrics) (hnd : (dictKeys c).Nodup) :
    (dictKeys (add_lyrics max_size c song_id lyrics)).Nodup := by
  rw [add_lyrics]
  have hset := dictSet_nodup (k := song_id) (v := lyrics) hnd
  by_cases h : max_size < (dictSet c song_id lyrics).length
  · rw [if_pos h]
    have hsub : dictKeys ((dictSet c song_id lyrics).drop 1) =
        (dictKeys (dictSet c song_id lyrics)).drop 1 := by
      simp [dictKeys]
    rw [hsub]
    exact hset.sublist (List.drop_sublist 1 _)
  · rw [if_neg h]
    exact hset

/-- When `add_lyrics` removes a key that was present, that key was the
head — the oldest-inserted key — of the cache before the call. -/
theorem add_lyrics_evicted {max_size : Nat} {c : PyDict Lyrics} {song_id : String}
    {lyrics : Lyrics} (hb : c.length ≤ max_size) {k : String}
    (hin : k ∈ dictKeys c)
    (hout : k ∉ dictKeys (add_lyrics max_size c song_id lyrics)) :
    (dictKeys c).head? = some k := by
  rw [add_lyrics] at hout
  by_cases hc : dictContains c song_id
  · rw [dictSet_length_of_contains hc, if_neg (by omega),
        dictKeys_dictSet_of_contains hc] at hout
    exact absurd hin hout
  · have hkeys := dictKeys_dictSet_of_not_contains (d := c) (v := lyrics)
      (by simpa using hc)
    by_cases h : max_size < (dictSet c song_id lyrics).length
    · rw [if_pos h] at hout
      have hdrop : dictKeys ((dictSet c song_id lyrics).drop 1) =
          (dictKeys (dictSet c song_id lyrics)).drop 1 := by
        simp [dictKeys]
      rw [hdrop, hkeys] at hout
      cases c with
      | nil => simp [dictKeys] at hin
      | cons p t =>
        have hkc : dictKeys (p :: t) = p.1 :: dictKeys t := rfl
        rw [hkc] at hin
        rcases List.mem_cons.mp hin with he | ht
        · rw [hkc]
          simp [he]
        · exfalso
          apply hout
          rw [hkc]
          simp only [List.cons_append, List.drop_succ_cons, List.drop_zero]
          exact List.mem_append.mpr (Or.inl ht)
    · rw [if_neg h, hkeys] at hout
      exact absurd (List.mem_append.mpr (Or.inl hin)) hout

/-- One `add` call of the claimed sequence. -/
def cacheStep (max_size : Nat) (c : PyDict Lyrics) (op : String × Lyrics) : PyDict Lyrics :=
  add_lyrics max_size c op.1 op.2

/-- The cache state after a sequence of `add` calls. -/
def cacheRun (max_size : Nat) (c0 : PyDict Lyrics) (ops : List (String × Lyrics)) :
    PyDict Lyrics :=
  ops.foldl (cacheStep max_size) c0

theorem cacheRun_inv (max_size : Nat) (ops : List (String × Lyrics)) :
    ∀ (c0 : PyDict Lyrics), (dictKeys c0).Nodup → c0.length ≤ max_size →
      (dictKeys (cacheRun max_size c0 ops)).Nodup ∧
        (cacheRun max_size c0 ops).length ≤ max_size := by
  induction ops with
  | nil => exact fun c0 hnd hb => ⟨hnd, hb⟩
  | cons op rest ih =>
    intro c0 hnd hb
    have hstep : cacheRun max_size c0 (op :: rest) =
        cacheRun max_size (cacheStep max_size c0 op) rest := rfl
    rw [hstep]
    exact ih _ (add_lyrics_nodup _ _ hnd) (add_lyrics_length _ _ hb)

/-! ### Claim C2: cache bound and FIFO eviction -/

/-- C2: for every `add` sequence on a cache that starts within bounds
(with the duplicate-free keys every Python dict has), after each call the
cache holds at most `max_size` entries, and any key that an `add` call
evicts was the oldest-inserted key still present — the head of the
insertion order. -/
theorem cacheBound_c2 (max_size : Nat) (c0 : PyDict Lyrics) (ops : List (String × Lyrics))
    (hnd : (dictKeys c0).Nodup) (hb : c0.length ≤ max_size) :
    (∀ n : Nat, (cacheRun max_size c0 (ops.take n)).length ≤ max_size) ∧
    (∀ (n : Nat) (op : String × Lyrics), ops[n]? = some op →
      ∀ k ∈ dictKeys (cacheRun max_size c0 (ops.take n)),
        k ∉ dictKeys (cacheRun max_size c0 (ops.take (n + 1))) →
        (dictKeys (cacheRun max_size c0 (ops.take n))).head? = some k) := by
  constructor
  · intro n
    exact (cacheRun_inv max_size (ops.take n) c0 hnd hb).2
  · intro n op hop k hin hout
    have hstate := cacheRun_inv max_size (ops.take n) c0 hnd hb
    have hsucc : cacheRun max_size c0 (ops.take (n + 1)) =
        add_lyrics max_size (cacheRun max_size c0 (ops.take n)) op.1 op.2 := by
      rw [cacheRun, List.take_succ, hop]
      simp [List.foldl_append, cacheRun, cacheStep]
    rw [hsucc] at hout
    exact add_lyrics_evicted hstate.2 hin hout

/-- Three adds against capacity 2, driving one eviction. -/
def opsABC : List (String × Lyrics) := [("a", []), ("b", []), ("c", [])]

theorem cacheBound_c2_witness :
    (cacheRun 2 [] (opsABC.take 3)).length ≤ 2 ∧
      (dictKeys (cacheRun 2 [] (opsABC.take 2))).head? = some "a" :=
  ⟨(cacheBound_c2 2 [] opsABC (by decide) (by decide)).1 3,
   (cacheBound_c2 2 [] opsABC (by decide) (by decide)).2 2 ("c", []) (by decide) "a"
     (by decide) (by decide)⟩

/-! ### Claim C10: overwriting an existing key -/

theorem find?_upd_self {α : Type} {k : String} {v : α} (d : PyDict α) (h : k ∈ dictKeys d) :
    (d.map (fun p => if p.1 = k then (k, v) else p)).find? (fun p => p.1 = k) =
      some (k, v) := by
  induction d with
  | nil => simp [dictKeys] at h
  | cons p t ih =>
    by_cases hp : p.1 = k
    · simp only [List.map_cons, if_pos hp]
      exact List.find?_cons_of_pos _ (by simp)
    · simp only [List.map_cons, if_neg hp]
      rw [List.find?_cons_of_neg _ (by simpa using hp)]
      refine ih ?_
      have hk : dictKeys (p :: t) = p.1 :: dictKeys t := rfl
      rw [hk] at h
      rcases List.mem_cons.mp h with he | ht
      · exact absurd he.symm hp
      · exact ht

theorem find?_upd_other {α : Type} {k k2 : String} {v : α} (hne : k2 ≠ k) (d : PyDict α) :
    (d.map (fun p => if p.1 = k then (k, v) else p)).find? (fun p => p.1 = k2) =
      d.find? (fun p => p.1 = k2) := by
  induction d with
  | nil => rfl
  | cons p t ih =>
    by_cases hp : p.1 = k
    · have hp2 : ¬(p.1 = k2) := by
        rw [hp]
        exact fun e => hne e.symm
      simp only [List.map_cons, if_pos hp]
      rw [List.find?_cons_of_neg _ (by simp; exact fun e => hne e.symm),
          List.find?_cons_of_neg _ (by simpa using hp2)]
      exact ih
    · simp only [List.map_cons, if_neg hp]
      by_cases hq : p.1 = k2
      · rw [List.find?_cons_of_pos _ (by simpa using hq),
            List.find?_cons_of_pos _ (by simpa using hq)]
      · rw [List.find?_cons_of_neg _ (by simpa using hq),
            List.find?_cons_of_neg _ (by simpa using hq)]
        exact ih

theorem dictGet_dictSet_self {α : Type} {d : PyDict α} {k : String} {v : α}
    (h : k ∈ dictKeys d) : dictGet (dictSet d k v) k = some v := by
  rw [dictSet, if_pos (dictContains_iff.mpr h), dictGet, find?_upd_self d h]
  rfl

theorem dictGet_dictSet_other {α : Type} {d : PyDict α} {k k2 : String} {v : α}
    (hc : dictContains d k = true) (hne : k2 ≠ k) :
    dictGet (dictSet d k v) k2 = dictGet d k2 := by
  rw [dictSet, if_pos hc, dictGet, find?_upd_other hne d]
  rfl

/-- C10: on a within-bounds cache, `add` with a key that is already present
replaces the stored value, evicts nothing, leaves the key sequence — and
hence the key's FIFO position — unchanged, and leaves every other key's
value unchanged. -/
theorem cacheOverwrite_c10 (max_size : Nat) (c : PyDict Lyrics) (k : String) (v : Lyrics)
    (hb : c.length ≤ max_size) (hk : k ∈ dictKeys c) :
    dictKeys (add_lyrics max_size c k v) = dictKeys c ∧
      dictGet (add_lyrics max_size c k v) k = some v ∧
      ∀ k2, k2 ≠ k → dictGet (add_lyrics max_size c k v) k2 = dictGet c k2 := by
  have hc : dictContains c k = true := dictContains_iff.mpr hk
  have hlen : (dictSet c k v).length = c.length := dictSet_length_of_contains hc
  have hnodrop : add_lyrics max_size c k v = dictSet c k v := by
    rw [add_lyrics, hlen, if_neg (by omega)]
  refine ⟨?_, ?_, ?_⟩
  · rw [hnodrop, dictKeys_dictSet_of_contains hc]
  · rw [hnodrop]
    exact dictGet_dictSet_self hk
  · intro k2 hne
    rw [hnodrop]
    exact dictGet_dictSet_other hc hne

/-- A concrete translated-lines value. -/
def demoLyrics : Lyrics := [⟨0, "hello", "hallo"⟩]

theorem cacheOverwrite_c10_witness :
    dictKeys (add_lyrics 2 [("x", []), ("y", [])] "x" demoLyrics) =
        dictKeys [("x", ([] : Lyrics)), ("y", [])] ∧
      dictGet (add_lyrics 2 [("x", []), ("y", [])] "x" demoLyrics) "x" = some demoLyrics ∧
      dictGet (add_lyrics 2 [("x", []), ("y", [])] "x" demoLyrics) "y" =
        dictGet [("x", ([] : Lyrics)), ("y", [])] "y" :=
  ⟨(cacheOverwrite_c10 2 _ "x" demoLyrics (by decide) (by decide)).1,
   (cacheOverwrite_c10 2 _ "x" demoLyrics (by decide) (by decide)).2.1,
   (cacheOverwrite_c10 2 _ "x" demoLyrics (by decide) (by decide)).2.2 "y" (by decide)⟩

/-! ### `_translate_lyrics` in src/gui/app.py -/

instance {ε α : Type} [DecidableEq ε] [DecidableEq α] : DecidableEq (Except ε α) := fun x y =>
  match x, y with
  | .ok a, .ok b =>
    if h : a = b then .isTrue (h ▸ rfl) else .isFalse fun e => h (Except.ok.inj e)
  | .error a, .error b =>
    if h : a = b then .isTrue (h ▸ rfl) else .isFalse fun e => h (Except.error.inj e)
  | .ok _, .error _ => .isFalse fun e => Except.noConfusion e
  | .error _, .ok _ => .isFalse fun e => Except.noConfusion e

/-- Embeds `translate_line` (src/gui/app.py, lines 310-321): call the
Translation Service on the line's text; any exception is caught and the
original text used as the translation; the result carries the line's start
time, original text and translation. -/
def translate_line (translator : String → Except PyExn String) (line : LyricLine) :
    TranslatedLine :=
  let original_text := line.words
  let translated_text :=
    match translator original_text with
    | .ok t => t
    | .error _ => original_text
  ⟨line.startTimeMs, original_text, translated_text⟩

/-! ### Claim C7: per-line failure isolation -/

/-- C7: if the Translation Service fails on the `i`-th line, that line's
result is the untranslated passthrough — original start time and text,
`translated = words` — and the failure does not propagate: every line on
which the service succeeds is translated normally. -/
theorem translateLine_fallback_c7 (translator : String → Except PyExn String)
    (lines : List LyricLine) (i : Nat) (l : LyricLine) (e : PyExn)
    (hl : lines[i]? = some l) (hfail : translator l.words = .error e) :
    (lines.map (translate_line translator))[i]? =
        some ⟨l.startTimeMs, l.words, l.words⟩ ∧
      ∀ (j : Nat) (l2 : LyricLine) (t : String), lines[j]? = some l2 →
        translator l2.words = .ok t →
        (lines.map (translate_line translator))[j]? =
          some ⟨l2.startTimeMs, l2.words, t⟩ := by
  constructor
  · rw [List.getElem?_map, hl]
    simp [translate_line, hfail]
  · intro j l2 t hl2 hok
    rw [List.getElem?_map, hl2]
    simp [translate_line, hok]

/-- A mock Translation Service failing on exactly the text `"b"`. -/
def mockTrFail : String → Except PyExn String :=
  fun w => if w = "b" then .error .otherError else .ok (w ++ "!")

theorem translateLine_fallback_c7_witness :
    (([⟨0, "a"⟩, ⟨10, "b"⟩, ⟨20, "c"⟩] : List LyricLine).map
        (translate_line mockTrFail))[1]? = some ⟨10, "b", "b"⟩ ∧
      (([⟨0, "a"⟩, ⟨10, "b"⟩, ⟨20, "c"⟩] : List LyricLine).map
        (translate_line mockTrFail))[0]? = some ⟨0, "a", "a!"⟩ :=
  ⟨(translateLine_fallback_c7 mockTrFail _ 1 ⟨10, "b"⟩ .otherError rfl (by decide)).1,
   (translateLine_fallback_c7 mockTrFail _ 1 ⟨10, "b"⟩ .otherError rfl (by decide)).2
     0 ⟨0, "a"⟩ "a!" rfl (by decide)⟩

/-! ### Claim C1: batch reassembly order -/

/-- Embeds the collection loop of `translate` (src/gui/app.py, lines
323-333): one future per line is submitted in input order, and
`[future.result() for future in as_completed(futures)]` collects the
results in completion order; `order` lists the indices of the futures in
the order their translations completed. -/
def translateSong (translator : String → Except PyExn String) (lines : List LyricLine)
    (order : List Nat) : List TranslatedLine :=
  order.filterMap (fun i => (lines[i]?).map (translate_line translator))

/-- A mock Translation Service that always succeeds. -/
def mockTr : String → Except PyExn String := fun w => .ok (w ++ "!")

/-- C1 (code behaviour at the failing input): with two lines whose
translations complete in reverse order — a legitimate completion order,
being a permutation of the submitted futures — `translate` collects the
batch as `[line 1, line 0]`: completion order, not the input order the
claim requires. -/
theorem translateSong_order_c1 :
    translateSong mockTr [⟨0, "a"⟩, ⟨1000, "b"⟩] [1, 0] =
        [⟨1000, "b", "b!"⟩, ⟨0, "a", "a!"⟩] ∧
      translateSong mockTr [⟨0, "a"⟩, ⟨1000, "b"⟩] [1, 0] ≠
        ([⟨0, "a"⟩, ⟨1000, "b"⟩] : List LyricLine).map (translate_line mockTr) ∧
      ([1, 0] : List Nat).Perm (List.range 2) :=
  ⟨by decide, by decide,
   by
    rw [show List.range 2 = [0, 1] from rfl]
    exact List.Perm.swap 0 1 []⟩

/-! ### Claim C3: stale-batch application to the display -/

/-- A row of the lyrics tree: Time cell, original text, translated text. -/
structure DisplayRow where
  time : String
  orig : String
  translated : String
deriving DecidableEq

/-- The match test of `update_translations` (lyrics_view.py, lines
107-108): `ms_to_min_sec(lyric['startTimeMs']) == start_time and
lyric['words'] == original_lyrics`. -/
def rowMatches (t : TranslatedLine) (row : DisplayRow) : Bool :=
  ms_to_min_sec (.int t.startTimeMs) = row.time && t.words = row.orig

/-- Embeds `update_translations` (src/gui/components/lyrics_view.py, lines
100-115): each row takes the translation of the first batch entry matching
its (time, original) pair; afterwards the first row's translation is
unconditionally overwritten with `translated_lyrics[0]['translated']` — an
`IndexError` when rows exist but the batch is empty. -/
def update_translations (rows : List DisplayRow)
    (translated_lyrics : List TranslatedLine) : Except PyExn (List DisplayRow) :=
  let rows1 := rows.map (fun row =>
    match translated_lyrics.find? (fun t => rowMatches t row) with
    | some t => { row with translated := t.translated }
    | Option.none => row)
  match rows1, translated_lyrics with
  | [], _ => .ok []
  | _ :: _, [] => .error .indexError
  | r0 :: rest, b0 :: _ => .ok ({ r0 with translated := b0.translated } :: rest)

/-- Embeds the completion callback of `translate` (src/gui/app.py, lines
332-333): commit the finished batch to the cache and apply it to whatever
rows the display currently shows. The currently tracked song id is not
consulted anywhere — the callback has no access to it. -/
def onTranslationComplete (max_size : Nat) (cache : PyDict Lyrics)
    (rows : List DisplayRow) (song_id : String)
    (translated_lyrics : List TranslatedLine) :
    PyDict Lyrics × Except PyExn (List DisplayRow) :=
  (add_lyrics max_size cache song_id translated_lyrics,
   update_translations rows translated_lyrics)

/-- C3 (code behaviour at the failing input): a finished batch for track
`"a"` arriving while track `"b"`'s single row is displayed is committed to
the cache and applied to the display anyway: none of its entries match the
displayed row, yet the unconditional first-row write puts the stale
translation `"hello"` into the displayed row. The displayed rows change
although the batch belongs to another track. -/
theorem staleBatch_applied_c3 :
    onTranslationComplete 1000 [] [⟨"0:00", "hello-b", ""⟩] "a" [⟨0, "hola", "hello"⟩] =
        ([("a", [⟨0, "hola", "hello"⟩])], .ok [⟨"0:00", "hello-b", "hello"⟩]) ∧
      (Except.ok [⟨"0:00", "hello-b", "hello"⟩] : Except PyExn (List DisplayRow)) ≠
        .ok [⟨"0:00", "hello-b", ""⟩] ∧
      "a" ≠ "b" :=
  ⟨by decide, by decide, by decide⟩

/-! ### Claim C8: the polling tick -/

/-- The `item` object of a playback state: the track's metadata. -/
structure SongItem where
  id : String
  duration_ms : Int
deriving DecidableEq

/-- The playback object returned by the Player Source: `progress_ms` is
`none` when the key is missing; `item` is `none` between tracks or for
non-track playback. -/
structure CurrentSong where
  progress_ms : Option Int
  item : Option SongItem
deriving DecidableEq

/-- What a tick did to the display. -/
inductive DisplayOutcome where
  | cleared
  | updated (song_id : String)
deriving DecidableEq

/-- Embeds `_get_current_playback_position` (src/gui/app.py, lines
228-236): any exception — from the fetch itself, from subscripting a
`None` result, or from a missing `progress_ms` key — is caught and
`(None, 0)` returned. -/
def getCurrentPlaybackPosition (fetch : Except PyExn (Option CurrentSong)) :
    Option CurrentSong × Int :=
  match fetch with
  | .error _ => (Option.none, 0)
  | .ok Option.none => (Option.none, 0)
  | .ok (some song) =>
    match song.progress_ms with
    | Option.none => (Option.none, 0)
    | some p => (some song, p)

/-- Embeds `_update_song_info` (src/gui/app.py, lines 238-253):
`current_song['item']['id']` raises `TypeError` when `item` is `None`; the
nested lyric updates (`_update_lyrics`, `update_current_lyric`) catch
their own exceptions. -/
def updateSongInfo (song : CurrentSong) : Except PyExn DisplayOutcome :=
  match song.item with
  | Option.none => .error .typeError
  | some it => .ok (.updated it.id)

/-- Embeds `update_display` (src/gui/app.py, lines 218-226): `.ok` means
the tick reached `self.root.after(500, self.update_display)` on line 226
and rescheduled itself; `.error` means an exception propagated first, so
the polling chain was not rescheduled. -/
def update_display (fetch : Except PyExn (Option CurrentSong)) :
    Except PyExn DisplayOutcome :=
  match getCurrentPlaybackPosition fetch with
  | (some song, _) => updateSongInfo song
  | (Option.none, _) => .ok .cleared

/-- C8 counterexample: a playback object with `item = None` (as Spotify
reports between tracks or for ads). Fetching succeeds, so the caught path
is bypassed; `_update_song_info` raises `TypeError`, the exception leaves
`update_display` before line 226, and the tick is not rescheduled. -/
theorem updateDisplay_c8_counterexample :
    update_display (.ok (some ⟨some 0, Option.none⟩)) = .error .typeError ∧
      ∀ o : DisplayOutcome, update_display (.ok (some ⟨some 0, Option.none⟩)) ≠ .ok o :=
  ⟨rfl, fun _ h => Except.noConfusion h⟩

/-- C8 amended: an exception raised while obtaining the playback state
(the fetch itself, a `None` result, a missing `progress_ms`) is caught and
the tick treated as "no song" — display cleared — and such a tick, like
every tick that completes its processing, reaches the reschedule on line
226. An exception raised while processing the fetched playback (a
track-less playback object in `_update_song_info`), however, propagates
before the reschedule and terminates the polling loop. -/
theorem updateDisplay_c8_amended :
    (∀ e : PyExn, update_display (.error e) = .ok .cleared) ∧
      update_display (.ok Option.none) = .ok .cleared ∧
      (∀ song : CurrentSong, song.progress_ms = Option.none →
        update_display (.ok (some song)) = .ok .cleared) ∧
      (∀ (song : CurrentSong) (p : Int) (it : SongItem),
        song.progress_ms = some p → song.item = some it →
        update_display (.ok (some song)) = .ok (.updated it.id)) ∧
      (∀ (song : CurrentSong) (p : Int),
        song.progress_ms = some p → song.item = Option.none →
        update_display (.ok (some song)) = .error .typeError) := by
  refine ⟨fun e => rfl, rfl, ?_, ?_, ?_⟩
  · intro song hp
    obtain ⟨pm, it⟩ := song
    cases hp
    rfl
  · intro song p it hp hi
    obtain ⟨pm, it0⟩ := song
    cases hp
    cases hi
    rfl
  · intro song p hp hi
    obtain ⟨pm, it0⟩ := song
    cases hp
    cases hi
    rfl

theorem updateDisplay_c8_amended_witness :
    update_display (.ok (some ⟨some 5, some ⟨"t1", 180000⟩⟩)) = .ok (.updated "t1") :=
  updateDisplay_c8_amended.2.2.2.1 ⟨some 5, some ⟨"t1", 180000⟩⟩ 5 ⟨"t1", 180000⟩ rfl rfl

/-! ### Claim C6: corrupt persisted store -/

/-- Result of `pickle.load` on the store's bytes: a successfully
deserialized map, or an exception — `EOFError`, `pickle.UnpicklingError`,
or any other exception class (`pickle.load` also raises e.g.
`AttributeError` or `ImportError` on some malformed inputs). -/
inductive PickleResult (α : Type) where
  | ok (a : α)
  | eofError
  | unpicklingError
  | otherExn

/-- Embeds `load_cache` (src/core/cache.py, lines 18-26) over an abstract
deserializer: when the store file exists and is non-empty, deserialize it;
`EOFError` and `pickle.UnpicklingError` are caught — the file is removed
and the map set to `{}` — while any other exception propagates; an absent
or empty file leaves the initial map untouched. Returns the store file's
new state together with the in-memory map. -/
def load_cache (unpickle : List Nat → PickleResult (PyDict Lyrics))
    (file : Option (List Nat)) (cache0 : PyDict Lyrics) :
    Except PyExn (Option (List Nat) × PyDict Lyrics) :=
  match file with
  | Option.none => .ok (Option.none, cache0)
  | some bytes =>
    if 0 < bytes.length then
      match unpickle bytes with
      | .ok m => .ok (some bytes, m)
      | .eofError => .ok (Option.none, [])
      | .unpicklingError => .ok (Option.none, [])
      | .otherExn => .error .otherError
    else .ok (some bytes, cache0)

/-- A deserializer that raises an exception class other than the two
caught ones — as `pickle.load` does on suitable garbage bytes. -/
def badUnpickle : List Nat → PickleResult (PyDict Lyrics) := fun _ => .otherExn

/-- C6 counterexample: garbage bytes on which deserialization raises an
exception other than `EOFError`/`UnpicklingError` (e.g. `AttributeError`
for the pickle stream `b"c__main__\nmissing\n."`): `load` propagates the
exception instead of deleting the store and installing an empty map. -/
theorem loadCache_c6_counterexample :
    load_cache badUnpickle (some [0]) [] = .error .otherError ∧
      load_cache badUnpickle (some [0]) [] ≠ .ok (Option.none, []) := by
  constructor
  · rfl
  · intro h
    rw [show load_cache badUnpickle (some [0]) [] = .error .otherError from rfl] at h
    exact Except.noConfusion h

/-- C6 amended: if the store is absent, the initial (empty) map is used
silently; if the store exists, is non-empty, and deserialization fails
with one of the two anticipated errors (`EOFError`,
`pickle.UnpicklingError`), the store file is deleted and the in-memory map
left empty, without raising. Deserialization failures of any other
exception class propagate, and an existing but empty store file is left in
place. -/
theorem loadCache_recovery_c6_amended
    (unpickle : List Nat → PickleResult (PyDict Lyrics)) :
    (∀ cache0 : PyDict Lyrics,
        load_cache unpickle Option.none cache0 = .ok (Option.none, cache0)) ∧
      (∀ (bytes : List Nat) (cache0 : PyDict Lyrics), bytes ≠ [] →
        (unpickle bytes = .eofError ∨ unpickle bytes = .unpicklingError) →
        load_cache unpickle (some bytes) cache0 = .ok (Option.none, [])) := by
  constructor
  · intro cache0
    rfl
  · intro bytes cache0 hne hfail
    rw [load_cache, if_pos (List.length_pos.mpr hne)]
    rcases hfail with h | h <;> rw [h]

/-- A deserializer that fails with `EOFError` on every input. -/
def eofUnpickle : List Nat → PickleResult (PyDict Lyrics) := fun _ => .eofError

theorem loadCache_recovery_c6_amended_witness :
    load_cache eofUnpickle (some [1, 2]) [("a", [])] = .ok (Option.none, []) :=
  (loadCache_recovery_c6_amended eofUnpickle).2 [1, 2] [("a", [])] (by simp) (Or.inl rfl)
